import Mathlib

/-!
Verification development for the order-lottery application (`app.py`).

The order pool is a Python dict mapping platform names to lists of order-number
strings; we embed it as an insertion-ordered association list.  The winner
ledger is a list of records.  Streamlit session state and the two JSON backing
files are embedded explicitly; every definition is translated directly from
the corresponding place in `app.py`.
-/

namespace Lottery

/-- An order pool: platform name ↦ ordered list of order-number strings
(`st.session_state.order_pool`, a Python dict with insertion order). -/
abbrev OrderPool := List (String × List String)

/-- Dict lookup: first entry with the given key (`pool[platform]` / `platform in pool`). -/
def lookupPool : OrderPool → String → Option (List String)
  | [], _ => none
  | (k, v) :: rest, p => if k = p then some v else lookupPool rest p

/-- Total number of orders across all platforms
(`sum(len(orders) for orders in pool.values())`). -/
def poolSize (pool : OrderPool) : Nat :=
  (pool.map (fun kv => kv.2.length)).sum

/-- `new_orders[platform].append(order)`: appends `o` to the list of the first
entry whose key is `p`; other entries untouched. -/
def appendOrder : OrderPool → String → String → OrderPool
  | [], _, _ => []
  | (k, v) :: rest, p, o => if k = p then (k, v ++ [o]) :: rest else (k, v) :: appendOrder rest p o

/-- `if platform not in new_orders: new_orders[platform] = []` — creates the
platform key with an empty order list if it is missing. -/
def ensureKey (pool : OrderPool) (p : String) : OrderPool :=
  if (lookupPool pool p).isSome then pool else pool ++ [(p, [])]

/-- Import mode radio button: 追加模式 (append) or 替换模式 (replace). -/
inductive ImportMode
  | append
  | replace
deriving DecidableEq, Repr

/-- The three tallies reported by `process_orders`:
`total_new`, `duplicates`, `errors`. -/
structure ImportStats where
  added : Nat
  duplicates : Nat
  errors : Nat
deriving DecidableEq, Repr

/-- One iteration of the `for platform, order in platform_order_pairs` loop in
`process_orders`: an empty platform or order field counts as an error; otherwise
the platform key is created if missing, and the order is appended unless it is
already in that platform's list (then a duplicate). -/
def importStep (acc : OrderPool × ImportStats) (pr : String × String) : OrderPool × ImportStats :=
  if pr.1 = "" ∨ pr.2 = "" then
    (acc.1, { acc.2 with errors := acc.2.errors + 1 })
  else if pr.2 ∈ (lookupPool (ensureKey acc.1 pr.1) pr.1).getD [] then
    (ensureKey acc.1 pr.1, { acc.2 with duplicates := acc.2.duplicates + 1 })
  else
    (appendOrder (ensureKey acc.1 pr.1) pr.1 pr.2, { acc.2 with added := acc.2.added + 1 })

/-- The starting pool of `process_orders`: in append mode a copy of the current
pool, in replace mode the empty dict. -/
def initImportPool : ImportMode → OrderPool → OrderPool
  | .append, pool => pool
  | .replace, _ => []

/-- The accumulation loop of `process_orders` over all input pairs. -/
def runImport (init : OrderPool) (pairs : List (String × String)) : OrderPool × ImportStats :=
  pairs.foldl importStep (init, ⟨0, 0, 0⟩)

/-- `process_orders`: runs the accumulation loop and swaps the new pool into
`st.session_state.order_pool` only when `total_new > 0 or (replace mode and
the input pair list is non-empty)`; otherwise the active pool is untouched.
Returns the active pool after the call together with the tallies. -/
def process_orders (mode : ImportMode) (pool : OrderPool) (pairs : List (String × String)) :
    OrderPool × ImportStats :=
  if 0 < (runImport (initImportPool mode pool) pairs).2.added
      ∨ (mode = ImportMode.replace ∧ pairs ≠ []) then
    runImport (initImportPool mode pool) pairs
  else
    (pool, (runImport (initImportPool mode pool) pairs).2)

theorem lookupPool_append_none {p : String} {v : List String} :
    ∀ pool : OrderPool, lookupPool pool p = none → lookupPool (pool ++ [(p, v)]) p = some v := by
  intro pool
  induction pool with
  | nil => intro _; simp [lookupPool]
  | cons kv rest ih =>
    intro h
    simp only [lookupPool] at h
    by_cases hk : kv.1 = p
    · simp [hk] at h
    · rw [List.cons_append]
      simp only [lookupPool, if_neg hk]
      exact ih (by simpa [hk] using h)

theorem poolSize_append (pool l : OrderPool) :
    poolSize (pool ++ l) = poolSize pool + poolSize l := by
  simp [poolSize, List.map_append, List.sum_append]

theorem poolSize_cons (k : String) (v : List String) (rest : OrderPool) :
    poolSize ((k, v) :: rest) = v.length + poolSize rest := by
  simp [poolSize]

theorem lookupPool_ensureKey (pool : OrderPool) (p : String) :
    (lookupPool (ensureKey pool p) p).isSome := by
  unfold ensureKey
  split
  · assumption
  · rename_i hns
    rw [lookupPool_append_none pool (Option.not_isSome_iff_eq_none.mp hns)]
    simp

theorem poolSize_ensureKey (pool : OrderPool) (p : String) :
    poolSize (ensureKey pool p) = poolSize pool := by
  unfold ensureKey
  split
  · rfl
  · rw [poolSize_append]
    simp [poolSize]

theorem appendOrder_poolSize {p o : String} :
    ∀ pool : OrderPool, (lookupPool pool p).isSome →
      poolSize (appendOrder pool p o) = poolSize pool + 1 := by
  intro pool
  induction pool with
  | nil => intro h; simp [lookupPool] at h
  | cons kv rest ih =>
    intro h
    obtain ⟨k, v⟩ := kv
    simp only [lookupPool] at h
    simp only [appendOrder]
    split
    · simp [poolSize_cons, List.length_append]
      omega
    · rename_i hk
      rw [poolSize_cons, poolSize_cons]
      rw [ih (by simpa [hk] using h)]
      omega

theorem importStep_poolSize (acc : OrderPool × ImportStats) (pr : String × String) :
    poolSize (importStep acc pr).1 + acc.2.added = poolSize acc.1 + (importStep acc pr).2.added := by
  unfold importStep
  split
  · simp
  · split
    · simp [poolSize_ensureKey]
    · simp only
      rw [appendOrder_poolSize (ensureKey acc.1 pr.1) (lookupPool_ensureKey acc.1 pr.1),
        poolSize_ensureKey]
      omega

theorem importStep_tally (acc : OrderPool × ImportStats) (pr : String × String) :
    (importStep acc pr).2.added + (importStep acc pr).2.duplicates + (importStep acc pr).2.errors
      = acc.2.added + acc.2.duplicates + acc.2.errors + 1 := by
  unfold importStep
  split
  · simp
    omega
  · split
    · simp
      omega
    · simp
      omega

theorem foldl_importStep_spec :
    ∀ (pairs : List (String × String)) (acc : OrderPool × ImportStats),
      poolSize (pairs.foldl importStep acc).1 + acc.2.added
          = poolSize acc.1 + (pairs.foldl importStep acc).2.added
        ∧ (pairs.foldl importStep acc).2.added + (pairs.foldl importStep acc).2.duplicates
              + (pairs.foldl importStep acc).2.errors
            = acc.2.added + acc.2.duplicates + acc.2.errors + pairs.length := by
  intro pairs
  induction pairs with
  | nil => intro acc; simp
  | cons pr rest ih =>
    intro acc
    obtain ⟨hr1, hr2⟩ := ih (importStep acc pr)
    have hstep1 := importStep_poolSize acc pr
    have hstep2 := importStep_tally acc pr
    simp only [List.foldl_cons, List.length_cons]
    exact ⟨by omega, by omega⟩

/-- C5: in append mode the resulting active pool's total order count is the
prior pool's count plus the `added` tally, and every input pair lands in
exactly one of the three tallies, so `added + duplicates + errors` is the
number of input pairs. -/
theorem c5_append_import_accounting (pool : OrderPool) (pairs : List (String × String)) :
    poolSize (process_orders ImportMode.append pool pairs).1
        = poolSize pool + (process_orders ImportMode.append pool pairs).2.added
      ∧ (process_orders ImportMode.append pool pairs).2.added
            + (process_orders ImportMode.append pool pairs).2.duplicates
            + (process_orders ImportMode.append pool pairs).2.errors
          = pairs.length := by
  obtain ⟨h1, h2⟩ := foldl_importStep_spec pairs (pool, ⟨0, 0, 0⟩)
  simp only at h1 h2
  simp only [process_orders, runImport, initImportPool]
  split
  · exact ⟨by omega, by omega⟩
  · rename_i hcond
    push_neg at hcond
    have hadded : (pairs.foldl importStep (pool, ⟨0, 0, 0⟩)).2.added = 0 := by
      rcases hcond with ⟨hlt, -⟩
      omega
    constructor
    · show poolSize pool
        = poolSize pool + (pairs.foldl importStep (pool, ⟨0, 0, 0⟩)).2.added
      omega
    · show (pairs.foldl importStep (pool, ⟨0, 0, 0⟩)).2.added
            + (pairs.foldl importStep (pool, ⟨0, 0, 0⟩)).2.duplicates
            + (pairs.foldl importStep (pool, ⟨0, 0, 0⟩)).2.errors
          = pairs.length
      omega

/-- C4: the pool produced by the accumulation loop is swapped into active state
if and only if at least one order was added, or the mode is replace and the
input pair list is non-empty; otherwise the active pool is exactly the prior
pool. -/
theorem c4_pool_swap_guard (mode : ImportMode) (pool : OrderPool) (pairs : List (String × String)) :
    (¬(0 < (process_orders mode pool pairs).2.added ∨ (mode = ImportMode.replace ∧ pairs ≠ [])) →
        (process_orders mode pool pairs).1 = pool)
      ∧ ((0 < (process_orders mode pool pairs).2.added ∨ (mode = ImportMode.replace ∧ pairs ≠ [])) →
        (process_orders mode pool pairs).1 = (runImport (initImportPool mode pool) pairs).1) := by
  have hstats : (process_orders mode pool pairs).2 = (runImport (initImportPool mode pool) pairs).2 := by
    simp only [process_orders]
    split
    · rfl
    · rfl
  simp only [process_orders, hstats] at *
  constructor
  · intro hn
    split
    · rename_i hcond
      rw [hstats] at hn
      exact absurd hcond hn
    · rfl
  · intro hc
    split
    · rfl
    · rename_i hcond
      rw [hstats] at hc
      exact absurd hc hcond

/-- C4 witness: an append-mode import that adds one order swaps the built pool in. -/
theorem c4_pool_swap_guard_witness :
    (process_orders ImportMode.append [] [("抖音", "D2023001")]).1
      = (runImport (initImportPool ImportMode.append []) [("抖音", "D2023001")]).1 :=
  (c4_pool_swap_guard ImportMode.append [] [("抖音", "D2023001")]).2 (Or.inl (by decide))

/-! ## Text-input import parsing

The 文本输入 handler strips the whole text, splits it into lines, strips each
line, skips blank lines, and splits each remaining line on its first comma.
A line whose split does not give exactly two parts (i.e. a line with no comma)
is silently dropped; only two-part lines become `(platform, order)` pairs. -/

/-- Whitespace characters removed by Python's `str.strip()` (the ones that can
occur in a text-area input). -/
def isWS (c : Char) : Bool :=
  c = ' ' ∨ c = '\t' ∨ c = '\n' ∨ c = '\r'

/-- Python `str.strip()` on a character sequence. -/
def pyStrip (cs : List Char) : List Char :=
  ((cs.dropWhile isWS).reverse.dropWhile isWS).reverse

/-- Python `str.split('\n')`. -/
def splitOnNl : List Char → List (List Char)
  | [] => [[]]
  | c :: rest =>
      if c = '\n' then [] :: splitOnNl rest
      else
        match splitOnNl rest with
        | [] => [[c]]
        | l :: ls => (c :: l) :: ls

/-- Python `line.split(',', 1)` restricted to the case the handler keeps:
`some (before, after)` iff the line contains a comma (`len(parts) == 2`),
splitting at the first comma. -/
def splitFirstComma : List Char → Option (List Char × List Char)
  | [] => none
  | c :: rest =>
      if c = ',' then some ([], rest)
      else
        match splitFirstComma rest with
        | none => none
        | some (a, b) => some (c :: a, b)

/-- The line loop of the 文本输入 import handler: strips the whole text, splits
it into lines, strips each line, skips blank lines, splits each remaining line
on its first comma, and keeps only the two-part splits as stripped
`(platform, order)` pairs.  A non-blank line with no comma is dropped without
being recorded anywhere. -/
def parseTextInput (text : String) : List (String × String) :=
  (splitOnNl (pyStrip text.data)).foldl
    (fun acc rawLine =>
      if pyStrip rawLine = [] then acc
      else
        match splitFirstComma (pyStrip rawLine) with
        | some (a, b) => acc ++ [(String.mk (pyStrip a), String.mk (pyStrip b))]
        | none => acc)
    []

/-! ## Winner ledger -/

/-- A winner record: `{'订单号': ..., '平台': ..., '时间': ...}`. -/
structure WinnerRecord where
  orderNo : String
  platform : String
  time : String
deriving DecidableEq, Repr

/-- One iteration of the confirm-completion save loop: append the entry to the
ledger only if no existing record shares its order number; the Bool tracks
`new_winners_added`. -/
def commitStep (acc : List WinnerRecord × Bool) (e : String × String × String) :
    List WinnerRecord × Bool :=
  if acc.1.any (fun w => w.orderNo == e.1) then acc
  else (acc.1 ++ [⟨e.1, e.2.1, e.2.2⟩], true)

/-- The confirm-completion save loop over all round entries
(`for order_num, platform, select_time in st.session_state.final_winners`),
starting with `new_winners_added = False`. -/
def commitWinners (ledger : List WinnerRecord) (entries : List (String × String × String)) :
    List WinnerRecord × Bool :=
  entries.foldl commitStep (ledger, false)

/-- Number of ledger records carrying a given order number. -/
def countOrder (l : List WinnerRecord) (o : String) : Nat :=
  l.countP (fun w => w.orderNo == o)

theorem commitStep_any_mono {p : WinnerRecord → Bool} {acc : List WinnerRecord × Bool}
    (e : String × String × String) (h : acc.1.any p = true) :
    ((commitStep acc e).1.any p) = true := by
  unfold commitStep
  split
  · exact h
  · simp only [List.any_append, h, Bool.true_or]

theorem foldl_commitStep_any_mono {p : WinnerRecord → Bool} :
    ∀ (entries : List (String × String × String)) (acc : List WinnerRecord × Bool),
      acc.1.any p = true → (entries.foldl commitStep acc).1.any p = true := by
  intro entries
  induction entries with
  | nil => intro acc h; exact h
  | cons e rest ih =>
    intro acc h
    exact ih (commitStep acc e) (commitStep_any_mono e h)

theorem foldl_commitStep_mem :
    ∀ (entries : List (String × String × String)) (acc : List WinnerRecord × Bool),
      ∀ e ∈ entries,
        ((entries.foldl commitStep acc).1.any (fun w => w.orderNo == e.1)) = true := by
  intro entries
  induction entries with
  | nil => intro acc e he; simp at he
  | cons e' rest ih =>
    intro acc e he
    rcases List.mem_cons.mp he with rfl | hmem
    · simp only [List.foldl_cons]
      apply foldl_commitStep_any_mono rest
      unfold commitStep
      split
      · assumption
      · simp
    · simp only [List.foldl_cons]
      exact ih (commitStep acc e') e hmem

theorem foldl_commitStep_noop :
    ∀ (entries : List (String × String × String)) (acc : List WinnerRecord × Bool),
      (∀ e ∈ entries, acc.1.any (fun w => w.orderNo == e.1) = true) →
      entries.foldl commitStep acc = acc := by
  intro entries
  induction entries with
  | nil => intro acc _; rfl
  | cons e rest ih =>
    intro acc h
    have hstep : commitStep acc e = acc := by
      unfold commitStep
      rw [if_pos (h e (List.mem_cons_self e rest))]
    simp only [List.foldl_cons, hstep]
    exact ih acc (fun e' he' => h e' (List.mem_cons_of_mem e he'))

theorem foldl_commitStep_count_of_present :
    ∀ (entries : List (String × String × String)) (l : List WinnerRecord) (b : Bool) (o : String),
      l.any (fun w => w.orderNo == o) = true →
      countOrder (entries.foldl commitStep (l, b)).1 o = countOrder l o := by
  intro entries
  induction entries with
  | nil => intro l b o _; rfl
  | cons e rest ih =>
    intro l b o h
    simp only [List.foldl_cons]
    by_cases hin : l.any (fun w => w.orderNo == e.1) = true
    · have hs : commitStep (l, b) e = (l, b) := by
        simp [commitStep, hin]
      rw [hs]
      exact ih l b o h
    · have hs : commitStep (l, b) e = (l ++ [⟨e.1, e.2.1, e.2.2⟩], true) := by
        simp only [commitStep]
        rw [if_neg hin]
      have hq : e.1 ≠ o := by
        intro hq
        rw [hq] at hin
        exact hin h
      have hne : (e.1 == o) = false := by simpa using hq
      have hany : ((l ++ [(⟨e.1, e.2.1, e.2.2⟩ : WinnerRecord)]).any
          (fun w => w.orderNo == o)) = true := by
        simp [List.any_append, h]
      have hcnt : countOrder (l ++ [(⟨e.1, e.2.1, e.2.2⟩ : WinnerRecord)]) o
          = countOrder l o := by
        simp [countOrder, List.countP_append, List.countP_cons, hne]
      rw [hs, ih (l ++ [(⟨e.1, e.2.1, e.2.2⟩ : WinnerRecord)]) true o hany, hcnt]

theorem foldl_commitStep_count_le :
    ∀ (entries : List (String × String × String)) (l : List WinnerRecord) (b : Bool) (o : String),
      countOrder (entries.foldl commitStep (l, b)).1 o ≤ countOrder l o + 1 := by
  intro entries
  induction entries with
  | nil => intro l b o; exact Nat.le_add_right _ 1
  | cons e rest ih =>
    intro l b o
    simp only [List.foldl_cons]
    by_cases hin : l.any (fun w => w.orderNo == e.1) = true
    · have hs : commitStep (l, b) e = (l, b) := by
        simp [commitStep, hin]
      rw [hs]
      exact ih l b o
    · have hs : commitStep (l, b) e = (l ++ [⟨e.1, e.2.1, e.2.2⟩], true) := by
        simp only [commitStep]
        rw [if_neg hin]
      rw [hs]
      by_cases hq : e.1 = o
      · subst hq
        have hany : ((l ++ [(⟨e.1, e.2.1, e.2.2⟩ : WinnerRecord)]).any
            (fun w => w.orderNo == e.1)) = true := by
          simp
        have hcnt : countOrder (l ++ [(⟨e.1, e.2.1, e.2.2⟩ : WinnerRecord)]) e.1
            = countOrder l e.1 + 1 := by
          simp [countOrder, List.countP_append, List.countP_cons]
        rw [foldl_commitStep_count_of_present rest
            (l ++ [(⟨e.1, e.2.1, e.2.2⟩ : WinnerRecord)]) true e.1 hany,
          hcnt]
      · have hne : (e.1 == o) = false := by simpa using hq
        have hcnt : countOrder (l ++ [(⟨e.1, e.2.1, e.2.2⟩ : WinnerRecord)]) o
            = countOrder l o := by
          simp [countOrder, List.countP_append, List.countP_cons, hne]
        have h := ih (l ++ [(⟨e.1, e.2.1, e.2.2⟩ : WinnerRecord)]) true o
        rw [hcnt] at h
        exact h

/-- C7: ledger commit is idempotent on order number.  (a) An entry whose order
number is already in the ledger changes that order's record count not at all;
(b) re-committing the same entries is a no-op that reports `new_winners_added =
false` (the informational outcome); (c) a double commit never yields two new
records with one order number: each order's count grows by at most one. -/
theorem c7_commit_idempotent (ledger : List WinnerRecord)
    (entries : List (String × String × String)) :
    (∀ o : String, ledger.any (fun w => w.orderNo == o) = true →
        countOrder (commitWinners ledger entries).1 o = countOrder ledger o)
      ∧ commitWinners (commitWinners ledger entries).1 entries
          = ((commitWinners ledger entries).1, false)
      ∧ (∀ o : String,
          countOrder (commitWinners ledger entries).1 o ≤ countOrder ledger o + 1) := by
  refine ⟨?_, ?_, ?_⟩
  · intro o ho
    exact foldl_commitStep_count_of_present entries ledger false o ho
  · apply foldl_commitStep_noop
    intro e he
    exact foldl_commitStep_mem entries (ledger, false) e he
  · intro o
    exact foldl_commitStep_count_le entries ledger false o

/-- C7 witness: committing an entry whose order number is already in the ledger
leaves that order's record count unchanged. -/
theorem c7_commit_idempotent_witness :
    countOrder (commitWinners [⟨"D2023001", "抖音", "2024-01-01 00:00:00"⟩]
        [("D2023001", "天猫", "2024-01-02 00:00:00")]).1 "D2023001"
      = countOrder [(⟨"D2023001", "抖音", "2024-01-01 00:00:00"⟩ : WinnerRecord)] "D2023001" :=
  (c7_commit_idempotent _ _).1 "D2023001" (by decide)

/-! ## Persisted files

`PERSIST_DIR` is hardcoded at the top of `app.py`; `WINNERS_FILE` and
`ORDER_POOL_FILE` are joined from it.  A file holds parsed JSON: either an
array of winner records or an object mapping platforms to order lists.  The
file system is a path-indexed association list. -/

def PERSIST_DIR : String := "/mount/src/e-commerce-platform-order-lottery-system"

def WINNERS_FILE : String := PERSIST_DIR ++ "/winners.json"

def ORDER_POOL_FILE : String := PERSIST_DIR ++ "/initial_order_pool.json"

/-- Parsed JSON content of a persisted file: `winners.json` holds an array of
records, `initial_order_pool.json` holds an object of platform ↦ order list. -/
inductive Json
  | arr (records : List WinnerRecord)
  | obj (pool : OrderPool)
deriving DecidableEq, Repr

/-- The file system: path ↦ parsed JSON content. -/
abbrev FileSystem := List (String × Json)

/-- Read a file; `none` = file does not exist. -/
def readFile : FileSystem → String → Option Json
  | [], _ => none
  | (q, v) :: rest, p => if q = p then some v else readFile rest p

/-- Overwrite (or create) a file wholesale, as `open(path, 'w')` + `json.dump`. -/
def writeFile : FileSystem → String → Json → FileSystem
  | [], p, j => [(p, j)]
  | (q, v) :: rest, p, j => if q = p then (q, j) :: rest else (q, v) :: writeFile rest p j

/-- The fixed six-platform empty pool, used both as the fallback of
`load_initial_order_pool` and as the `empty_order_pool` of the pool reset. -/
def defaultOrderPool : OrderPool :=
  [("抖音", []), ("天猫", []), ("京东", []), ("小红书", []), ("拼多多", []), ("微信小店", [])]

/-- `load_initial_order_pool`: reads `ORDER_POOL_FILE`; a missing file (or a
failed parse, not modelled since the store holds parsed JSON) yields the
default six-platform pool.  The function returns whatever JSON the file holds,
exactly as `json.load` does. -/
def load_initial_order_pool (fs : FileSystem) : Json :=
  (readFile fs ORDER_POOL_FILE).getD (Json.obj defaultOrderPool)

/-! ## Management session state and the two-step destructive operations -/

/-- The session-state fields touched by the management flows: the winner
ledger, the per-session draw-winner marker, the active order pool and the
three pending-confirmation flags. -/
structure MgmtState where
  winners : List WinnerRecord
  current_draw_winners : List WinnerRecord
  order_pool : OrderPool
  reset_history_confirmed : Bool
  confirm_save : Bool
  reset_confirmed : Bool
deriving DecidableEq, Repr

/-- First click of 重置所有抽奖历史 (rendered only while the flag is unset):
sets the pending flag and reruns; nothing else. -/
def resetHistoryFirstClick (s : MgmtState) (fs : FileSystem) : MgmtState × FileSystem :=
  ({ s with reset_history_confirmed := true }, fs)

/-- 取消重置 in the ledger-reset flow: clears the flag; nothing else. -/
def resetHistoryCancel (s : MgmtState) (fs : FileSystem) : MgmtState × FileSystem :=
  ({ s with reset_history_confirmed := false }, fs)

/-- 确认重置 of the ledger reset: clears the in-memory ledger and the draw
marker, then writes the empty JSON array `[]` to `file_path = ORDER_POOL_FILE`
(this is the literal assignment in the confirm branch, even though the
surrounding messages speak of `winners.json`), then calls `save_winners([])`
which writes `[]` to `WINNERS_FILE`, and finally clears the flag.  The
verification re-read in between does not mutate anything. -/
def resetHistoryConfirm (s : MgmtState) (fs : FileSystem) : MgmtState × FileSystem :=
  ({ s with winners := [], current_draw_winners := [], reset_history_confirmed := false },
    writeFile (writeFile fs ORDER_POOL_FILE (Json.arr [])) WINNERS_FILE (Json.arr []))

/-- First click of 保存为初始化数据: sets the pending flag; nothing else. -/
def saveInitialFirstClick (s : MgmtState) (fs : FileSystem) : MgmtState × FileSystem :=
  ({ s with confirm_save := true }, fs)

/-- 取消保存: clears the flag; nothing else. -/
def saveInitialCancel (s : MgmtState) (fs : FileSystem) : MgmtState × FileSystem :=
  ({ s with confirm_save := false }, fs)

/-- 确认保存: `save_initial_order_pool` writes the active pool to
`ORDER_POOL_FILE` (successful-I/O path), then the flag is cleared; the
follow-up `load_initial_order_pool` is a read only. -/
def saveInitialConfirm (s : MgmtState) (fs : FileSystem) : MgmtState × FileSystem :=
  ({ s with confirm_save := false }, writeFile fs ORDER_POOL_FILE (Json.obj s.order_pool))

/-- First click of 重置订单池: sets the pending flag; nothing else. -/
def resetPoolFirstClick (s : MgmtState) (fs : FileSystem) : MgmtState × FileSystem :=
  ({ s with reset_confirmed := true }, fs)

/-- 取消重置 in the pool-reset flow: clears the flag; nothing else. -/
def resetPoolCancel (s : MgmtState) (fs : FileSystem) : MgmtState × FileSystem :=
  ({ s with reset_confirmed := false }, fs)

/-- 确认重置 of the pool reset: writes the six-platform empty pool to
`os.path.join(os.getcwd(), 'initial_order_pool.json')` — the current working
directory, not `PERSIST_DIR` — sets the in-memory pool to the empty pool, and
clears the flag.  `cwd` is the process working directory. -/
def resetPoolConfirm (cwd : String) (s : MgmtState) (fs : FileSystem) : MgmtState × FileSystem :=
  ({ s with order_pool := defaultOrderPool, reset_confirmed := false },
    writeFile fs (cwd ++ "/initial_order_pool.json") (Json.obj defaultOrderPool))

/-- C8: for each of the three two-step destructive operations, the first
invocation sets only its pending-confirmation flag (all other session fields
and the whole file system are untouched), and a cancel invocation clears only
that flag; the mutation itself can therefore happen only in the confirm
branch. -/
theorem c8_two_step_confirmation_frame (s : MgmtState) (fs : FileSystem) :
    resetHistoryFirstClick s fs = ({ s with reset_history_confirmed := true }, fs)
      ∧ resetHistoryCancel s fs = ({ s with reset_history_confirmed := false }, fs)
      ∧ saveInitialFirstClick s fs = ({ s with confirm_save := true }, fs)
      ∧ saveInitialCancel s fs = ({ s with confirm_save := false }, fs)
      ∧ resetPoolFirstClick s fs = ({ s with reset_confirmed := true }, fs)
      ∧ resetPoolCancel s fs = ({ s with reset_confirmed := false }, fs) :=
  ⟨rfl, rfl, rfl, rfl, rfl, rfl⟩

/-- C1 (code bug): a confirmed ledger reset does empty the winner store, but it
also overwrites `initial_order_pool.json` with the JSON array `[]`, because the
confirm branch assigns `file_path = ORDER_POOL_FILE`.  Evaluated on a file
system whose pool snapshot holds one order: after the reset the winners file is
the empty array, and the pool snapshot — untouched according to the claim — has
been replaced by the empty array. -/
theorem c1_ledger_reset_clobbers_pool_file :
    readFile (resetHistoryConfirm
        ⟨[⟨"D2023001", "抖音", "2024-01-01 00:00:00"⟩], [], [("抖音", ["D2023001"])],
          true, false, false⟩
        [(ORDER_POOL_FILE, Json.obj [("抖音", ["D2023001"])]),
          (WINNERS_FILE, Json.arr [⟨"D2023001", "抖音", "2024-01-01 00:00:00"⟩])]).2
        WINNERS_FILE = some (Json.arr [])
      ∧ readFile [(ORDER_POOL_FILE, Json.obj [("抖音", ["D2023001"])]),
          (WINNERS_FILE, Json.arr [⟨"D2023001", "抖音", "2024-01-01 00:00:00"⟩])]
          ORDER_POOL_FILE = some (Json.obj [("抖音", ["D2023001"])])
      ∧ readFile (resetHistoryConfirm
          ⟨[⟨"D2023001", "抖音", "2024-01-01 00:00:00"⟩], [], [("抖音", ["D2023001"])],
            true, false, false⟩
          [(ORDER_POOL_FILE, Json.obj [("抖音", ["D2023001"])]),
            (WINNERS_FILE, Json.arr [⟨"D2023001", "抖音", "2024-01-01 00:00:00"⟩])]).2
          ORDER_POOL_FILE = some (Json.arr []) := by
  refine ⟨?_, ?_, ?_⟩ <;> decide

/-- C2 (code bug): a confirmed pool reset sets the in-memory pool to the
six-platform empty pool, but persists it to `os.getcwd()/initial_order_pool.json`
while `load_initial_order_pool` reads `PERSIST_DIR/initial_order_pool.json`.
Evaluated with working directory `/app` ≠ `PERSIST_DIR`: after the reset the
load of the persisted snapshot still returns the old non-empty pool, not the
empty pool the claim requires. -/
theorem c2_pool_reset_roundtrip_fails :
    (resetPoolConfirm "/app"
        ⟨[], [], [("抖音", ["D2023001"])], false, false, true⟩
        [(ORDER_POOL_FILE, Json.obj [("抖音", ["D2023001"])])]).1.order_pool = defaultOrderPool
      ∧ load_initial_order_pool (resetPoolConfirm "/app"
          ⟨[], [], [("抖音", ["D2023001"])], false, false, true⟩
          [(ORDER_POOL_FILE, Json.obj [("抖音", ["D2023001"])])]).2
          = Json.obj [("抖音", ["D2023001"])]
      ∧ Json.obj [("抖音", ["D2023001"])] ≠ Json.obj defaultOrderPool
      ∧ readFile (resetPoolConfirm "/app"
          ⟨[], [], [("抖音", ["D2023001"])], false, false, true⟩
          [(ORDER_POOL_FILE, Json.obj [("抖音", ["D2023001"])])]).2
          "/app/initial_order_pool.json" = some (Json.obj defaultOrderPool) := by
  refine ⟨?_, ?_, ?_, ?_⟩ <;> decide

/-! ## Round confirmation (确认完成抽奖) -/

/-- Outcome of the confirm-completion handler. -/
structure ConfirmOutcome where
  winners : List WinnerRecord
  final_winners : List (String × String × String)
  current_rolling_order : String × String
  fs : FileSystem
deriving DecidableEq, Repr

/-- The 确认完成抽奖 handler: if saving was requested, run the dedup-append
commit loop over the round accumulator directly on the in-memory ledger, and —
only when something was actually appended — call `save_winners`, whose failure
(`saveSucceeds = false`) merely reports a warning and is modelled as leaving
the file unchanged; no rollback of the in-memory append happens.  Afterwards
the round accumulator and the current rolling candidate are cleared
unconditionally. -/
def confirmCompletion (winners : List WinnerRecord) (finalW : List (String × String × String))
    (saveRequested saveSucceeds : Bool) (fs : FileSystem) : ConfirmOutcome :=
  let r := if saveRequested then commitWinners winners finalW else (winners, false)
  { winners := r.1
    final_winners := []
    current_rolling_order := ("", "")
    fs := if saveRequested && r.2 && saveSucceeds then writeFile fs WINNERS_FILE (Json.arr r.1)
          else fs }

/-- C10: when saving is requested and the ledger write fails, the records the
commit loop appended stay in the in-memory ledger (no rollback, so memory and
file diverge), the file is not updated, and the round accumulator and current
candidate are still cleared. -/
theorem c10_failed_save_keeps_memory_and_clears_round (winners : List WinnerRecord)
    (finalW : List (String × String × String)) (fs : FileSystem) :
    (confirmCompletion winners finalW true false fs).winners = (commitWinners winners finalW).1
      ∧ (confirmCompletion winners finalW true false fs).final_winners = []
      ∧ (confirmCompletion winners finalW true false fs).current_rolling_order = ("", "")
      ∧ (confirmCompletion winners finalW true false fs).fs = fs := by
  refine ⟨?_, rfl, rfl, ?_⟩ <;> simp [confirmCompletion]

/-- C9 (code bug): the text-import line loop drops a non-blank line with no
comma without counting it: the input `"抖音\n天猫,T2023002"` (first line
malformed — it does not split into two parts on a comma) produces a single
pair and an import whose aggregate error tally is 0, so the malformed line is
never reported. -/
theorem c9_malformed_line_not_counted :
    parseTextInput "抖音\n天猫,T2023002" = [("天猫", "T2023002")]
      ∧ (process_orders ImportMode.append defaultOrderPool
          (parseTextInput "抖音\n天猫,T2023002")).2.errors = 0
      ∧ (process_orders ImportMode.append defaultOrderPool
          (parseTextInput "抖音\n天猫,T2023002")).2.added = 1 := by
  refine ⟨?_, ?_, ?_⟩ <;> decide

/-! ## Draw engine

One Streamlit script run processes at most one widget event and then, if the
round is rolling and the recomputed eligible list is non-empty, the animation
loop repeatedly overwrites `current_rolling_order` with a random choice from
the eligible list until the next interaction; the nondeterministic choice is an
explicit parameter of each step. -/

/-- The draw page's session state: the pool, the checked platforms, the target
count (`winner_count`), the rolling flag, `current_rolling_order`, and the
round accumulator `final_winners` of (order, platform, select time). -/
structure DrawState where
  pool : OrderPool
  selected : List String
  winnerCount : Nat
  isRolling : Bool
  current : String × String
  finalWinners : List (String × String × String)
deriving DecidableEq, Repr

/-- The recomputed eligible list: every order of a selected platform whose
order number is not already among the round accumulator's order numbers. -/
def eligibleOrders (s : DrawState) : List (String × String) :=
  s.selected.flatMap fun platform =>
    ((lookupPool s.pool platform).getD []).filterMap fun order =>
      if s.finalWinners.any (fun w => w.1 == order) then none else some (order, platform)

/-- `total_orders_in_selected_platforms`. -/
def totalSelected (s : DrawState) : Nat :=
  (s.selected.map fun platform => ((lookupPool s.pool platform).getD []).length).sum

/-- User interactions on the draw page: the three buttons, the confirm button,
and the two widgets (count input, platform checkboxes). -/
inductive DrawEvent
  | startClick
  | selectClick (t : String)
  | resetClick
  | confirmClick
  | setCount (n : Nat)
  | setSelected (ps : List String)
deriving DecidableEq, Repr

/-- Effect of one widget event.  Start: refused while rolling, with an empty
eligible list, with a full accumulator, or when the selected platforms hold no
more orders than the target (button `disabled`), then re-checked by the
handler; otherwise the rolling flag is set.  Select: enabled only while
rolling; stops rolling and appends the current candidate when its order number
is non-empty.  Reset: enabled only with a non-empty accumulator; clears it.
Confirm: shown only when the accumulator is full; clears accumulator and
candidate (its ledger side is `confirmCompletion`).  The count widget clamps
to [1, 100]; the checkboxes replace the selection. -/
def applyEvent (s : DrawState) : DrawEvent → DrawState
  | .startClick =>
      if s.isRolling = true ∨ eligibleOrders s = [] ∨ s.winnerCount ≤ s.finalWinners.length
          ∨ totalSelected s ≤ s.winnerCount then s
      else if s.selected = [] then s
      else if totalSelected s ≤ s.winnerCount then s
      else if eligibleOrders s = [] then s
      else { s with isRolling := true }
  | .selectClick t =>
      if s.isRolling = true then
        if s.current.1 ≠ "" then
          { s with
            isRolling := false
            finalWinners := s.finalWinners ++ [(s.current.1, s.current.2, t)] }
        else { s with isRolling := false }
      else s
  | .resetClick =>
      if s.finalWinners = [] then s
      else { s with finalWinners := [], isRolling := false }
  | .confirmClick =>
      if s.finalWinners.length = s.winnerCount then
        { s with finalWinners := [], current := ("", "") }
      else s
  | .setCount n =>
      if 1 ≤ n ∧ n ≤ 100 then { s with winnerCount := n } else s
  | .setSelected ps => { s with selected := ps }

/-- The animation loop of one script run: while rolling with a non-empty
eligible list, `current_rolling_order` ends up as some element of the eligible
list (the adversarial `choice` if eligible, else the head). -/
def rollIfNeeded (s : DrawState) (choice : String × String) : DrawState :=
  if s.isRolling = true ∧ eligibleOrders s ≠ [] then
    { s with current := if choice ∈ eligibleOrders s then choice
                        else (eligibleOrders s).headD ("", "") }
  else s

/-- One full script run: the widget event, then the animation loop. -/
def drawStep (s : DrawState) (e : DrawEvent) (choice : String × String) : DrawState :=
  rollIfNeeded (applyEvent s e) choice

/-- A whole interaction sequence, each event paired with the loop's choice. -/
def runDraw (s : DrawState) : List (DrawEvent × String × String) → DrawState
  | [] => s
  | ec :: rest => runDraw (drawStep s ec.1 (ec.2.1, ec.2.2)) rest

/-- Fresh draw-page state: all platform checkboxes start checked
(`value=True`), nothing rolling, empty candidate and accumulator; `count0` is
the value of the count widget. -/
def initDrawState (pool : OrderPool) (count0 : Nat) : DrawState :=
  { pool := pool, selected := pool.map (fun kv => kv.1), winnerCount := count0,
    isRolling := false, current := ("", ""), finalWinners := [] }

/-- Detects a change of the target count. -/
def isSetCount : DrawEvent → Bool
  | .setCount _ => true
  | _ => false

/-- The order numbers accumulated in the current round. -/
def roundOrders (s : DrawState) : List String :=
  s.finalWinners.map (fun w => w.1)

/-- The exact condition under which the start click flips the rolling flag. -/
def StartGuard (s : DrawState) : Prop :=
  s.isRolling = false ∧ s.selected ≠ [] ∧ eligibleOrders s ≠ []
    ∧ s.finalWinners.length < s.winnerCount ∧ s.winnerCount < totalSelected s

instance (s : DrawState) : Decidable (StartGuard s) := by
  unfold StartGuard
  infer_instance

theorem applyEvent_start_pos {s : DrawState} (h : StartGuard s) :
    applyEvent s DrawEvent.startClick = { s with isRolling := true } := by
  obtain ⟨h0, h1, h2, h3, h4⟩ := h
  have hA : ¬(s.isRolling = true ∨ eligibleOrders s = []
      ∨ s.winnerCount ≤ s.finalWinners.length ∨ totalSelected s ≤ s.winnerCount) := by
    push_neg
    exact ⟨by simp [h0], h2, h3, h4⟩
  show (if s.isRolling = true ∨ eligibleOrders s = [] ∨ s.winnerCount ≤ s.finalWinners.length
      ∨ totalSelected s ≤ s.winnerCount then s
    else if s.selected = [] then s
    else if totalSelected s ≤ s.winnerCount then s
    else if eligibleOrders s = [] then s
    else { s with isRolling := true }) = { s with isRolling := true }
  rw [if_neg hA, if_neg h1, if_neg (Nat.not_le.mpr h4), if_neg h2]

theorem applyEvent_start_neg {s : DrawState} (h : ¬ StartGuard s) :
    applyEvent s DrawEvent.startClick = s := by
  show (if s.isRolling = true ∨ eligibleOrders s = [] ∨ s.winnerCount ≤ s.finalWinners.length
      ∨ totalSelected s ≤ s.winnerCount then s
    else if s.selected = [] then s
    else if totalSelected s ≤ s.winnerCount then s
    else if eligibleOrders s = [] then s
    else { s with isRolling := true }) = s
  by_cases hA : s.isRolling = true ∨ eligibleOrders s = []
      ∨ s.winnerCount ≤ s.finalWinners.length ∨ totalSelected s ≤ s.winnerCount
  · rw [if_pos hA]
  · push_neg at hA
    obtain ⟨hr, he, hl, ht⟩ := hA
    by_cases hsel : s.selected = []
    · rw [if_neg (by push_neg; exact ⟨hr, he, hl, ht⟩), if_pos hsel]
    · exact absurd ⟨Bool.not_eq_true _ ▸ (by simpa using hr), hsel, he, hl, ht⟩ h

theorem rollIfNeeded_isRolling (s : DrawState) (c : String × String) :
    (rollIfNeeded s c).isRolling = s.isRolling := by
  unfold rollIfNeeded
  split
  · rfl
  · rfl

theorem rollIfNeeded_finalWinners (s : DrawState) (c : String × String) :
    (rollIfNeeded s c).finalWinners = s.finalWinners := by
  unfold rollIfNeeded
  split
  · rfl
  · rfl

theorem rollIfNeeded_not_rolling {s : DrawState} (c : String × String)
    (h : s.isRolling = false) : rollIfNeeded s c = s := by
  unfold rollIfNeeded
  rw [if_neg]
  simp [h]

theorem headD_mem {α} {l : List α} (d : α) (h : l ≠ []) : l.headD d ∈ l := by
  cases l with
  | nil => exact absurd rfl h
  | cons a as => simp

theorem mem_eligible_not_won {s : DrawState} {op : String × String}
    (h : op ∈ eligibleOrders s) : op.1 ∉ roundOrders s := by
  obtain ⟨o, p⟩ := op
  simp only [eligibleOrders, List.mem_flatMap, List.mem_filterMap] at h
  obtain ⟨plat, hplat, ord, hord, hif⟩ := h
  by_cases hany : s.finalWinners.any (fun w => w.1 == ord) = true
  · rw [if_pos hany] at hif
    cases hif
  · rw [if_neg hany] at hif
    obtain ⟨rfl, rfl⟩ : ord = o ∧ plat = p := by
      constructor <;> injection hif with h1 <;> simp_all
    intro hmem
    apply hany
    simp only [roundOrders, List.mem_map] at hmem
    obtain ⟨w, hw, hwo⟩ := hmem
    exact List.any_eq_true.mpr ⟨w, hw, by simp [hwo]⟩

/-- Distinctness invariant, plus the auxiliary fact that a rolling state's
candidate is absent from the accumulator (or empty). -/
def DrawInv (s : DrawState) : Prop :=
  (roundOrders s).Nodup
    ∧ (s.isRolling = true → s.current.1 = "" ∨ s.current.1 ∉ roundOrders s)

theorem nodup_append_one {α} {l : List α} {a : α} (h1 : l.Nodup) (h2 : a ∉ l) :
    (l ++ [a]).Nodup := by
  simp [List.nodup_append, h1, h2]

theorem rollIfNeeded_inv (s : DrawState) (c : String × String)
    (h1 : (roundOrders s).Nodup)
    (h2 : s.isRolling = true → eligibleOrders s = [] →
      s.current.1 = "" ∨ s.current.1 ∉ roundOrders s) :
    DrawInv (rollIfNeeded s c) := by
  unfold rollIfNeeded
  split
  · rename_i hcond
    obtain ⟨hr, hne⟩ := hcond
    refine ⟨h1, fun _ => Or.inr ?_⟩
    have hmem : (if c ∈ eligibleOrders s then c else (eligibleOrders s).headD ("", ""))
        ∈ eligibleOrders s := by
      split
      · assumption
      · exact headD_mem ("", "") hne
    exact mem_eligible_not_won hmem
  · rename_i hcond
    refine ⟨h1, fun hr => ?_⟩
    rw [not_and_or] at hcond
    rcases hcond with h | h
    · exact absurd hr h
    · push_neg at h
      exact h2 hr h

theorem drawStep_inv (s : DrawState) (e : DrawEvent) (c : String × String)
    (h : DrawInv s) : DrawInv (drawStep s e c) := by
  obtain ⟨h1, h2⟩ := h
  cases e with
  | startClick =>
      by_cases hg : StartGuard s
      · rw [drawStep, applyEvent_start_pos hg]
        refine rollIfNeeded_inv _ c h1 (fun _ helig => ?_)
        exact absurd helig hg.2.2.1
      · rw [drawStep, applyEvent_start_neg hg]
        exact rollIfNeeded_inv s c h1 (fun hr _ => h2 hr)
  | selectClick t =>
      by_cases hroll : s.isRolling = true
      · by_cases hcur : s.current.1 ≠ ""
        · have happ : applyEvent s (DrawEvent.selectClick t)
              = { s with
                  isRolling := false
                  finalWinners := s.finalWinners ++ [(s.current.1, s.current.2, t)] } := by
            show (if s.isRolling = true then _ else s) = _
            rw [if_pos hroll, if_pos hcur]
          rw [drawStep, happ, rollIfNeeded_not_rolling _ rfl]
          refine ⟨?_, fun hr => by cases hr⟩
          have hfresh : s.current.1 ∉ roundOrders s := by
            rcases h2 hroll with he | hnotin
            · exact absurd he hcur
            · exact hnotin
          show ((s.finalWinners ++ [(s.current.1, s.current.2, t)]).map (fun w => w.1)).Nodup
          rw [List.map_append]
          exact nodup_append_one h1 (by simpa [roundOrders] using hfresh)
        · have happ : applyEvent s (DrawEvent.selectClick t)
              = { s with isRolling := false } := by
            show (if s.isRolling = true then _ else s) = _
            rw [if_pos hroll, if_neg hcur]
          rw [drawStep, happ, rollIfNeeded_not_rolling _ rfl]
          exact ⟨h1, fun hr => by cases hr⟩
      · have happ : applyEvent s (DrawEvent.selectClick t) = s := by
          show (if s.isRolling = true then _ else s) = s
          rw [if_neg hroll]
        rw [drawStep, happ]
        exact rollIfNeeded_inv s c h1 (fun hr _ => h2 hr)
  | resetClick =>
      by_cases hres : s.finalWinners = []
      · have happ : applyEvent s DrawEvent.resetClick = s := by
          show (if s.finalWinners = [] then s else _) = s
          rw [if_pos hres]
        rw [drawStep, happ]
        exact rollIfNeeded_inv s c h1 (fun hr _ => h2 hr)
      · have happ : applyEvent s DrawEvent.resetClick
            = { s with finalWinners := [], isRolling := false } := by
          show (if s.finalWinners = [] then s else _) = _
          rw [if_neg hres]
        rw [drawStep, happ, rollIfNeeded_not_rolling _ rfl]
        exact ⟨by simp [roundOrders], fun hr => by cases hr⟩
  | confirmClick =>
      by_cases hlen : s.finalWinners.length = s.winnerCount
      · have happ : applyEvent s DrawEvent.confirmClick
            = { s with finalWinners := [], current := ("", "") } := by
          show (if s.finalWinners.length = s.winnerCount then _ else s) = _
          rw [if_pos hlen]
        rw [drawStep, happ]
        exact rollIfNeeded_inv _ c (by simp [roundOrders]) (fun _ _ => Or.inl rfl)
      · have happ : applyEvent s DrawEvent.confirmClick = s := by
          show (if s.finalWinners.length = s.winnerCount then _ else s) = s
          rw [if_neg hlen]
        rw [drawStep, happ]
        exact rollIfNeeded_inv s c h1 (fun hr _ => h2 hr)
  | setCount n =>
      by_cases hn : 1 ≤ n ∧ n ≤ 100
      · have happ : applyEvent s (DrawEvent.setCount n) = { s with winnerCount := n } := by
          show (if 1 ≤ n ∧ n ≤ 100 then _ else s) = _
          rw [if_pos hn]
        rw [drawStep, happ]
        exact rollIfNeeded_inv _ c h1 (fun hr _ => h2 hr)
      · have happ : applyEvent s (DrawEvent.setCount n) = s := by
          show (if 1 ≤ n ∧ n ≤ 100 then _ else s) = s
          rw [if_neg hn]
        rw [drawStep, happ]
        exact rollIfNeeded_inv s c h1 (fun hr _ => h2 hr)
  | setSelected ps =>
      have happ : applyEvent s (DrawEvent.setSelected ps) = { s with selected := ps } := rfl
      rw [drawStep, happ]
      exact rollIfNeeded_inv _ c h1 (fun hr _ => h2 hr)

theorem runDraw_inv : ∀ (evs : List (DrawEvent × String × String)) (s : DrawState),
    DrawInv s → DrawInv (runDraw s evs) := by
  intro evs
  induction evs with
  | nil => intro s h; exact h
  | cons ec rest ih =>
    intro s h
    exact ih _ (drawStep_inv s ec.1 (ec.2.1, ec.2.2) h)

/-- Size invariant: the accumulator never exceeds the target, and a rolling
state still has room for the select that ends it. -/
def SizeInv (s : DrawState) : Prop :=
  s.finalWinners.length ≤ s.winnerCount
    ∧ (s.isRolling = true → s.finalWinners.length < s.winnerCount)

theorem rollIfNeeded_size (s : DrawState) (c : String × String) (h : SizeInv s) :
    SizeInv (rollIfNeeded s c) := by
  unfold rollIfNeeded
  split
  · exact h
  · exact h

theorem drawStep_size (s : DrawState) (e : DrawEvent) (c : String × String)
    (hnc : isSetCount e = false) (h : SizeInv s) : SizeInv (drawStep s e c) := by
  obtain ⟨hle, hlt⟩ := h
  cases e with
  | startClick =>
      by_cases hg : StartGuard s
      · rw [drawStep, applyEvent_start_pos hg]
        exact rollIfNeeded_size _ c ⟨hle, fun _ => hg.2.2.2.1⟩
      · rw [drawStep, applyEvent_start_neg hg]
        exact rollIfNeeded_size s c ⟨hle, hlt⟩
  | selectClick t =>
      by_cases hroll : s.isRolling = true
      · by_cases hcur : s.current.1 ≠ ""
        · have happ : applyEvent s (DrawEvent.selectClick t)
              = { s with
                  isRolling := false
                  finalWinners := s.finalWinners ++ [(s.current.1, s.current.2, t)] } := by
            show (if s.isRolling = true then _ else s) = _
            rw [if_pos hroll, if_pos hcur]
          rw [drawStep, happ, rollIfNeeded_not_rolling _ rfl]
          refine ⟨?_, fun hr => by cases hr⟩
          show (s.finalWinners ++ [(s.current.1, s.current.2, t)]).length ≤ s.winnerCount
          rw [List.length_append]
          have := hlt hroll
          simp
          omega
        · have happ : applyEvent s (DrawEvent.selectClick t)
              = { s with isRolling := false } := by
            show (if s.isRolling = true then _ else s) = _
            rw [if_pos hroll, if_neg hcur]
          rw [drawStep, happ, rollIfNeeded_not_rolling _ rfl]
          exact ⟨hle, fun hr => by cases hr⟩
      · have happ : applyEvent s (DrawEvent.selectClick t) = s := by
          show (if s.isRolling = true then _ else s) = s
          rw [if_neg hroll]
        rw [drawStep, happ]
        exact rollIfNeeded_size s c ⟨hle, hlt⟩
  | resetClick =>
      by_cases hres : s.finalWinners = []
      · have happ : applyEvent s DrawEvent.resetClick = s := by
          show (if s.finalWinners = [] then s else _) = s
          rw [if_pos hres]
        rw [drawStep, happ]
        exact rollIfNeeded_size s c ⟨hle, hlt⟩
      · have happ : applyEvent s DrawEvent.resetClick
            = { s with finalWinners := [], isRolling := false } := by
          show (if s.finalWinners = [] then s else _) = _
          rw [if_neg hres]
        rw [drawStep, happ, rollIfNeeded_not_rolling _ rfl]
        exact ⟨Nat.zero_le _, fun hr => by cases hr⟩
  | confirmClick =>
      by_cases hlen : s.finalWinners.length = s.winnerCount
      · have happ : applyEvent s DrawEvent.confirmClick
            = { s with finalWinners := [], current := ("", "") } := by
          show (if s.finalWinners.length = s.winnerCount then _ else s) = _
          rw [if_pos hlen]
        rw [drawStep, happ]
        refine rollIfNeeded_size _ c ⟨Nat.zero_le _, fun hr => ?_⟩
        have := hlt hr
        omega
      · have happ : applyEvent s DrawEvent.confirmClick = s := by
          show (if s.finalWinners.length = s.winnerCount then _ else s) = s
          rw [if_neg hlen]
        rw [drawStep, happ]
        exact rollIfNeeded_size s c ⟨hle, hlt⟩
  | setCount n =>
      exact absurd hnc (by simp [isSetCount])
  | setSelected ps =>
      have happ : applyEvent s (DrawEvent.setSelected ps) = { s with selected := ps } := rfl
      rw [drawStep, happ]
      exact rollIfNeeded_size _ c ⟨hle, hlt⟩

theorem runDraw_size : ∀ (evs : List (DrawEvent × String × String)) (s : DrawState),
    (∀ ec ∈ evs, isSetCount ec.1 = false) → SizeInv s → SizeInv (runDraw s evs) := by
  intro evs
  induction evs with
  | nil => intro s _ h; exact h
  | cons ec rest ih =>
    intro s hnc h
    exact ih _ (fun e he => hnc e (List.mem_cons_of_mem ec he))
      (drawStep_size s ec.1 (ec.2.1, ec.2.2) (hnc ec (List.mem_cons_self ec rest)) h)

/-- C3 counterexample: from the fresh state over pool `{"A": ["1","2","3"]}`,
set the target to 2, draw and select twice, then lower the target to 1 — a
legal widget change — and the round accumulator (size 2) now exceeds the
target count (1), refuting the claimed bound under target-count changes. -/
theorem c3_counterexample :
    (runDraw (initDrawState [("A", ["1", "2", "3"])] 1)
        [(DrawEvent.setCount 2, "", ""),
          (DrawEvent.startClick, "1", "A"),
          (DrawEvent.selectClick "t1", "", ""),
          (DrawEvent.startClick, "2", "A"),
          (DrawEvent.selectClick "t2", "", ""),
          (DrawEvent.setCount 1, "", "")]).winnerCount
      < (runDraw (initDrawState [("A", ["1", "2", "3"])] 1)
        [(DrawEvent.setCount 2, "", ""),
          (DrawEvent.startClick, "1", "A"),
          (DrawEvent.selectClick "t1", "", ""),
          (DrawEvent.startClick, "2", "A"),
          (DrawEvent.selectClick "t2", "", ""),
          (DrawEvent.setCount 1, "", "")]).finalWinners.length := by
  decide

/-- C3 (amended): for every reachable draw-round state the accumulator's order
numbers are pairwise distinct, under every sequence of actions including
target-count changes; the accumulator's size never exceeds the target count
provided the target count is not changed between actions (lowering the target
below the current accumulator size immediately violates the bound, see the
counterexample). -/
theorem c3_round_accumulator_amended (pool : OrderPool) (count0 : Nat)
    (evs : List (DrawEvent × String × String)) :
    (roundOrders (runDraw (initDrawState pool count0) evs)).Nodup
      ∧ ((∀ ec ∈ evs, isSetCount ec.1 = false) →
          (runDraw (initDrawState pool count0) evs).finalWinners.length
            ≤ (runDraw (initDrawState pool count0) evs).winnerCount) := by
  constructor
  · refine (runDraw_inv evs _ ⟨?_, fun hr => ?_⟩).1
    · simp [roundOrders, initDrawState]
    · simp [initDrawState] at hr
  · intro hnc
    refine (runDraw_size evs _ hnc ⟨Nat.zero_le _, fun hr => ?_⟩).1
    simp [initDrawState] at hr

/-- C3 witness: a concrete two-select round without count changes keeps the
accumulator distinct and within the target. -/
theorem c3_round_accumulator_amended_witness :
    (roundOrders (runDraw (initDrawState [("A", ["1", "2", "3"])] 2)
        [(DrawEvent.startClick, "1", "A"),
          (DrawEvent.selectClick "t1", "", ""),
          (DrawEvent.startClick, "2", "A"),
          (DrawEvent.selectClick "t2", "", "")])).Nodup
      ∧ (runDraw (initDrawState [("A", ["1", "2", "3"])] 2)
          [(DrawEvent.startClick, "1", "A"),
            (DrawEvent.selectClick "t1", "", ""),
            (DrawEvent.startClick, "2", "A"),
            (DrawEvent.selectClick "t2", "", "")]).finalWinners.length
        ≤ (runDraw (initDrawState [("A", ["1", "2", "3"])] 2)
          [(DrawEvent.startClick, "1", "A"),
            (DrawEvent.selectClick "t1", "", ""),
            (DrawEvent.startClick, "2", "A"),
            (DrawEvent.selectClick "t2", "", "")]).winnerCount := by
  have h := c3_round_accumulator_amended [("A", ["1", "2", "3"])] 2
    [(DrawEvent.startClick, "1", "A"),
      (DrawEvent.selectClick "t1", "", ""),
      (DrawEvent.startClick, "2", "A"),
      (DrawEvent.selectClick "t2", "", "")]
  exact ⟨h.1, h.2 (by decide)⟩

/-- C6: from an idle state, the start click flips the state to rolling exactly
when at least one platform is selected, the eligible list is non-empty, the
accumulator size is strictly below the target count, and the selected
platforms' total order count strictly exceeds the target count; if any of the
four conditions fails, the whole script run leaves the state unchanged. -/
theorem c6_start_transition_guard (s : DrawState) (c : String × String)
    (hidle : s.isRolling = false) :
    ((s.selected ≠ [] ∧ eligibleOrders s ≠ [] ∧ s.finalWinners.length < s.winnerCount
        ∧ s.winnerCount < totalSelected s) →
      (drawStep s DrawEvent.startClick c).isRolling = true)
      ∧ (¬(s.selected ≠ [] ∧ eligibleOrders s ≠ [] ∧ s.finalWinners.length < s.winnerCount
          ∧ s.winnerCount < totalSelected s) →
        drawStep s DrawEvent.startClick c = s) := by
  constructor
  · rintro ⟨hsel, helig, hlen, htot⟩
    rw [drawStep, applyEvent_start_pos ⟨hidle, hsel, helig, hlen, htot⟩,
      rollIfNeeded_isRolling]
  · intro hn
    have hg : ¬ StartGuard s := fun hgg => hn ⟨hgg.2.1, hgg.2.2.1, hgg.2.2.2.1, hgg.2.2.2.2⟩
    rw [drawStep, applyEvent_start_neg hg, rollIfNeeded_not_rolling c hidle]

/-- C6 witness: on a fresh state with three orders and target 2 the start click
starts rolling. -/
theorem c6_start_transition_guard_witness :
    (drawStep (initDrawState [("A", ["1", "2", "3"])] 2) DrawEvent.startClick
        ("1", "A")).isRolling = true :=
  (c6_start_transition_guard (initDrawState [("A", ["1", "2", "3"])] 2) ("1", "A") rfl).1
    (by decide)

end Lottery
